import Mathlib

/-!
# Verification of `build_site.py`

A shallow embedding of the text pipeline in `build_site.py`: the page-marker
splitter `split_response_and_page`, the TSV row reader `parse_rows`, the HTML
escaping helper `linebreak_to_html`, the numbered-clause segmenter
`to_bullets` (a direct operational model of the Python regex
`((?<!\d)\d+\.\s+.*?)(?=(?:(?<!\d)\d+\.\s+)|$)` under `re.findall`),
the cell renderer `list_html`, the template `build_html` and the driver
`main` (modelled as `mainRun`).

Modelling conventions:
* strings are worked on as `List Char` (`String.data`);
* Python `str.strip()` and the regex classes `\s`, `\d` are modelled over
  their ASCII members (`' '`, `'\t'`, `'\n'`, `'\r'`, `'\x0b'`, `'\x0c'`,
  resp. `'0'`–`'9'`), which is exact for all inputs the program handles;
* the CSV reader (tab delimiter) is modelled as splitting each line on
  tab characters, which is exact for lines containing no quote character;
* file writes are modelled by the pair of contents returned by `mainRun`,
  `SystemExit` by `Except.error`.
-/

namespace BuildSite

/-- Python whitespace (`str.strip`, regex `\s`), ASCII members. -/
def isPyWs (c : Char) : Bool :=
  c = ' ' || c = '\t' || c = '\n' || c = '\r' || c = '\x0b' || c = '\x0c'

/-- Python `text.strip()`: drop leading and trailing whitespace. -/
def stripChars (l : List Char) : List Char :=
  ((l.dropWhile isPyWs).reverse.dropWhile isPyWs).reverse

/-- Python `text.rstrip("。")`: drop trailing full stops. -/
def rstripStop (l : List Char) : List Char :=
  (l.reverse.dropWhile (fun c => decide (c = '。'))).reverse

/-- `str.strip()` at `String` level. -/
def pyStrip (s : String) : String := String.mk (stripChars s.data)

/-- The page marker `"頁碼："` of `split_response_and_page`. -/
def markerChars : List Char := ['頁', '碼', '：']

/-- Boolean list-prefix test. -/
def isPref : List Char → List Char → Bool
  | [], _ => true
  | _ :: _, [] => false
  | a :: as, b :: bs => a = b && isPref as bs

/-- Does `markerChars` occur as a substring? (Python `marker in text`.) -/
def occursMarker : List Char → Bool
  | [] => false
  | c :: r => isPref markerChars (c :: r) || occursMarker r

/-- Python `text.rsplit(marker, 1)`: split at the last occurrence of the
marker, returning the parts before and after it; `none` when the marker
does not occur. -/
def rsplitMarker : List Char → Option (List Char × List Char)
  | [] => none
  | c :: r =>
    match rsplitMarker r with
    | some (x, y) => some (c :: x, y)
    | none =>
      if isPref markerChars (c :: r) then some ([], (c :: r).drop 3) else none

/-- `split_response_and_page` (build_site.py lines 17-26). -/
def split_response_and_page (s : String) : String × String :=
  match rsplitMarker s.data with
  | none => (String.mk (stripChars s.data), "第＿＿＿頁至第＿＿＿頁")
  | some (left, right) =>
    let response := rstripStop (stripChars left)
    let page := rstripStop (stripChars right)
    (String.mk response,
      if page = [] then "第＿＿＿頁至第＿＿＿頁" else String.mk page)

/-- One character of `html.escape` (quote=True).  The Python function is a
chain of whole-string `str.replace` calls, `&` first; since no replacement
string contains a character replaced later (and the `&` pass runs first),
the chain is equal to this character-wise map. -/
def escChar (c : Char) : List Char :=
  if c = '&' then ['&', 'a', 'm', 'p', ';']
  else if c = '<' then ['&', 'l', 't', ';']
  else if c = '>' then ['&', 'g', 't', ';']
  else if c = '"' then ['&', 'q', 'u', 'o', 't', ';']
  else if c = '\'' then ['&', '#', 'x', '2', '7', ';']
  else [c]

/-- `html.escape` over a character list. -/
def escList : List Char → List Char
  | [] => []
  | c :: r => escChar c ++ escList r

/-- `html.escape(text)`. -/
def html_escape (s : String) : String := String.mk (escList s.data)

/-- `escaped.replace("\n", "<br>")`, character-wise (the pattern is a single
character, so `str.replace` is exactly this map). -/
def brList : List Char → List Char
  | [] => []
  | c :: r => (if c = '\n' then ['<', 'b', 'r', '>'] else [c]) ++ brList r

/-- `linebreak_to_html` (build_site.py lines 50-52): escape first, then
replace newlines. -/
def linebreak_to_html (s : String) : String :=
  String.mk (brList (html_escape s).data)

/-- Automaton for `escapedOk`: the first argument is the tail of the
token being consumed (`"<br>"` after a `'<'`, one of the five escape
entities after a `'&'`); with no pending token, a `'<'` must start
`"<br>"` and a `'&'` must start an entity, every other character is
free. -/
def escAuto : List Char → List Char → Bool
  | e :: es, c :: r => if c = e then escAuto es r else false
  | _ :: _, [] => false
  | [], [] => true
  | [], c :: r =>
    if c = '<' then escAuto ['b', 'r', '>'] r
    else if c = '&' then
      match r with
      | [] => false
      | c2 :: r2 =>
        if c2 = 'a' then escAuto ['m', 'p', ';'] r2
        else if c2 = 'l' then escAuto ['t', ';'] r2
        else if c2 = 'g' then escAuto ['t', ';'] r2
        else if c2 = 'q' then escAuto ['u', 'o', 't', ';'] r2
        else if c2 = '#' then escAuto ['x', '2', '7', ';'] r2
        else false
    else escAuto [] r

/-- Checker for rendered text: every `'<'` starts a literal `"<br>"` and
every `'&'` starts one of the five entities emitted by `html.escape`
(`"&amp;"`, `"&lt;"`, `"&gt;"`, `"&quot;"`, `"&#x27;"`). -/
def escapedOk (l : List Char) : Bool := escAuto [] l

/-! ## The `to_bullets` regex

`re.findall(r"((?<!\d)\d+\.\s+.*?)(?=(?:(?<!\d)\d+\.\s+)|$)", text)`.

The pattern is modelled operationally.  `dotWs`, `digitsThen` and
`markerHead` decide whether `(?<!\d)\d+\.\s+` matches at the head of a
list given whether the previous character was a digit; `contentRun` is the
lazy `.*?` bounded by the lookahead (`$` without `re.MULTILINE` matches at
the end of the string or just before a final newline; `.` does not match a
newline); `matchTail`/`matchAt` assemble one match, and `scanAux` is the
left-to-right non-overlapping scan of `findall`.  Backtracking into `\d+`
or `\s+` can never turn a failed attempt into a success for this pattern
(a shorter digit run is still followed by a digit, and every position
inside the whitespace run rejects both lookahead alternatives), so the
greedy, non-backtracking model is exact. -/

/-- `\.\s` at the head of the list. -/
def dotWs : List Char → Bool
  | c :: d :: _ => decide (c = '.') && isPyWs d
  | _ => false

/-- After at least one digit: skip the remaining digits, then require
`\.\s`. -/
def digitsThen : List Char → Bool
  | [] => false
  | c :: r => if c.isDigit then digitsThen r else dotWs (c :: r)

/-- `(?<!\d)\d+\.\s+` matches at the head; `prevD` tells whether the
preceding character is a digit. -/
def markerHead (prevD : Bool) : List Char → Bool
  | [] => false
  | c :: r => !prevD && c.isDigit && digitsThen r

/-- The lookahead `(?=(?:(?<!\d)\d+\.\s+)|$)`. -/
def lookOk (prevD : Bool) (l : List Char) : Bool :=
  l.isEmpty || decide (l = ['\n']) || markerHead prevD l

/-- The lazy `.*?` up to the first position where the lookahead holds;
fails (`none`) if a newline is hit first.  Returns the consumed content
and the remainder. -/
def contentRun (prevD : Bool) : List Char → Option (List Char × List Char)
  | [] => some ([], [])
  | c :: r =>
    if lookOk prevD (c :: r) then some ([], c :: r)
    else if c = '\n' then none
    else
      match contentRun c.isDigit r with
      | some (cs, rem) => some (c :: cs, rem)
      | none => none

/-- Continue a match after its first digit: remaining digits, `'.'`, the
greedy whitespace run, then `contentRun`. -/
def matchTail : List Char → Option (List Char × List Char)
  | [] => none
  | c :: r =>
    if c.isDigit then
      match matchTail r with
      | some (m, rem) => some (c :: m, rem)
      | none => none
    else if c = '.' then
      match r with
      | [] => none
      | x :: r' =>
        if isPyWs x then
          match contentRun false (r'.dropWhile isPyWs) with
          | some (cs, rem) =>
            some ('.' :: x :: (r'.takeWhile isPyWs ++ cs), rem)
          | none => none
        else none
    else none

/-- Attempt one regex match at the head of `l`. -/
def matchAt (prevD : Bool) : List Char → Option (List Char × List Char)
  | [] => none
  | c :: r =>
    if !prevD && c.isDigit then
      match matchTail r with
      | some (m, rem) => some (c :: m, rem)
      | none => none
    else none

/-- The `findall` scan: try a match at each position, left to right,
continuing after each match.  `fuel` bounds the recursion; one unit is
spent per position tried, so `l.length + 1` always suffices. -/
def scanAux : Nat → Bool → List Char → List (List Char)
  | 0, _, _ => []
  | _ + 1, _, [] => []
  | fuel + 1, prevD, c :: r =>
    match matchAt prevD (c :: r) with
    | some (m, rem) =>
      m :: scanAux fuel (match m.getLast? with
                         | some d => d.isDigit
                         | none => false) rem
    | none => scanAux fuel c.isDigit r

/-- `re.findall` of the numbered-clause pattern. -/
def pyFindall (l : List Char) : List (List Char) :=
  scanAux (l.length + 1) false l

/-- Python `text.split("\n")`. -/
def splitNl : List Char → List (List Char)
  | [] => [[]]
  | c :: r =>
    if c = '\n' then [] :: splitNl r
    else
      match splitNl r with
      | [] => [[c]]
      | x :: xs => (c :: x) :: xs

/-- `to_bullets` (build_site.py lines 55-65) over a character list. -/
def toBulletsL (l : List Char) : List (List Char) :=
  let t := stripChars l
  if t.isEmpty then []
  else
    let numbered := pyFindall t
    if !numbered.isEmpty then
      (numbered.map stripChars).filter (fun item => !item.isEmpty)
    else
      let lines := ((splitNl t).map stripChars).filter (fun seg => !seg.isEmpty)
      if 1 < lines.length then lines else [t]

/-- `to_bullets(text)`. -/
def to_bullets (s : String) : List String :=
  (toBulletsL s.data).map String.mk

/-- `list_html` (build_site.py lines 68-71). -/
def list_html (text : String) : String :=
  "<ul class=\"cell-list\">" ++
    String.join ((to_bullets text).map
      (fun item => "<li>" ++ linebreak_to_html item ++ "</li>")) ++
    "</ul>"

/-! ## The row reader -/

/-- Split a line on tab characters.  This models `csv.reader` with
`delimiter="\t"` for lines without quote characters. -/
def splitTab : List Char → List (List Char)
  | [] => [[]]
  | c :: r =>
    if c = '\t' then [] :: splitTab r
    else
      match splitTab r with
      | [] => [[c]]
      | x :: xs => (c :: x) :: xs

/-- One CSV row from one input line; a blank line yields the empty row,
as `csv.reader` does. -/
def readTsvLine (line : String) : List String :=
  if line = "" then [] else (splitTab line.data).map String.mk

/-- The loop body of `parse_rows` (build_site.py lines 33-46) over the
rows produced by the reader. -/
def parseLoop : Bool → List (List String) → List (String × String × String)
  | _, [] => []
  | headerSeen, row :: rest =>
    if row.isEmpty then parseLoop headerSeen rest
    else if !headerSeen then parseLoop true rest
    else if row.length < 2 then parseLoop headerSeen rest
    else
      match row with
      | f0 :: f1 :: _ =>
        let opinion := pyStrip f0
        let response_full := pyStrip f1
        if opinion ≠ "" ∧ response_full ≠ "" then
          (opinion, split_response_and_page response_full) ::
            parseLoop headerSeen rest
        else parseLoop headerSeen rest
      | _ => parseLoop headerSeen rest

/-- `parse_rows` (build_site.py lines 29-47), taking the input file as a
list of lines.  Each output row is `(opinion, (response, page))`. -/
def parse_rows (lines : List String) : List (String × String × String) :=
  parseLoop false (lines.map readTsvLine)

/-! ## The HTML renderer and driver -/

/-- One `<tr>` block of `build_html` (build_site.py lines 77-83). -/
def table_row (row : String × String × String) : String :=
  "      <tr>\n        <td>" ++ list_html row.1 ++
    "</td>\n        <td>" ++ list_html row.2.1 ++
    "</td>\n        <td>" ++ list_html row.2.2 ++
    "</td>\n      </tr>"

/-- The template text before the interpolated rows (build_site.py lines
85-220); literal braces and apostrophes are written as `\x7b`, `\x7d`,
`\x27`. -/
def htmlPre : String :=
"<!doctype html>
<html lang=\"zh-Hant\">
<head>
  <meta charset=\"utf-8\">
  <meta name=\"viewport\" content=\"width=device-width, initial-scale=1\">
  <meta http-equiv=\"Content-Security-Policy\" content=\"default-src \x27none\x27; style-src \x27unsafe-inline\x27; img-src \x27self\x27 data:; font-src \x27self\x27; base-uri \x27none\x27; form-action \x27none\x27; frame-ancestors \x27none\x27; upgrade-insecure-requests\">
  <meta name=\"referrer\" content=\"no-referrer\">
  <meta name=\"robots\" content=\"index,follow,max-image-preview:none\">
  <meta name=\"description\" content=\"114年度碳中和中程計畫審查意見修正對照表，提供教育局報送使用。\">
  <meta name=\"color-scheme\" content=\"light\">
  <link rel=\"canonical\" href=\"https://haoahao.github.io/Carbon_Neutral/\">
  <title>114年度碳中和中程計畫 審查意見修正對照表</title>
  <style>
    :root \x7b
      --bg: #f4f7f2;
      --card: #ffffff;
      --line: #d7dfd4;
      --head: #2a4f35;
      --headText: #f7fbf8;
      --text: #1f2a22;
      --muted: #5d6e62;
    \x7d
    * \x7b box-sizing: border-box; \x7d
    body \x7b
      margin: 0;
      font-family: \"Noto Sans TC\", \"Microsoft JhengHei\", sans-serif;
      color: var(--text);
      background:
        radial-gradient(1000px 300px at 10% -20%, #dfeadb 0%, transparent 60%),
        radial-gradient(700px 240px at 100% 0%, #e9efe4 0%, transparent 55%),
        var(--bg);
    \x7d
    .wrap \x7b
      max-width: 1180px;
      margin: 32px auto;
      padding: 0 16px 24px;
    \x7d
    .hero \x7b
      background: linear-gradient(135deg, #2f5f41 0%, #244832 100%);
      color: #fff;
      border-radius: 14px;
      padding: 22px 20px;
      margin-bottom: 18px;
      box-shadow: 0 8px 20px rgba(0, 0, 0, 0.12);
    \x7d
    .hero h1 \x7b
      margin: 0 0 8px;
      font-size: 1.28rem;
      line-height: 1.4;
    \x7d
    .hero p \x7b
      margin: 0;
      color: #e4efe8;
      font-size: .95rem;
    \x7d
    .card \x7b
      background: var(--card);
      border: 1px solid var(--line);
      border-radius: 14px;
      overflow: hidden;
      box-shadow: 0 10px 24px rgba(10, 30, 10, .06);
    \x7d
    .scroll \x7b
      overflow-x: auto;
    \x7d
    table \x7b
      width: 100%;
      border-collapse: collapse;
      min-width: 980px;
    \x7d
    th, td \x7b
      vertical-align: top;
      border: 1px solid var(--line);
      padding: 12px;
      line-height: 1.6;
      font-size: 0.95rem;
    \x7d
    th \x7b
      background: var(--head);
      color: var(--headText);
      text-align: left;
      position: sticky;
      top: 0;
      z-index: 1;
    \x7d
    td:first-child \x7b
      width: 26%;
      background: #f8fcf7;
      font-weight: 700;
    \x7d
    td:nth-child(2) \x7b
      width: 56%;
    \x7d
    td:nth-child(3) \x7b
      width: 18%;
      white-space: nowrap;
    \x7d
    .cell-list \x7b
      margin: 0;
      padding-left: 1.1rem;
    \x7d
    .cell-list li \x7b
      margin: 0 0 .3rem 0;
    \x7d
    .cell-list li:last-child \x7b
      margin-bottom: 0;
    \x7d
    .footer \x7b
      margin-top: 14px;
      color: var(--muted);
      font-size: .86rem;
    \x7d
    @media (max-width: 768px) \x7b
      .wrap \x7b margin: 18px auto; \x7d
      .hero h1 \x7b font-size: 1.1rem; \x7d
      th, td \x7b padding: 10px; font-size: .9rem; \x7d
    \x7d
  </style>
</head>
<body>
  <main class=\"wrap\">
    <section class=\"hero\">
      <h1>114年度「碳中和中程計畫」審查意見修正對照表</h1>
      <p>三欄格式：審查意見 / 修正情形 / 頁碼（可直接列印或作為附件）</p>
    </section>
    <section class=\"card\">
      <div class=\"scroll\">
        <table>
          <thead>
            <tr>
              <th>審查意見</th>
              <th>修正情形</th>
              <th>頁碼</th>
            </tr>
          </thead>
          <tbody>
"

/-- The template text after the interpolated rows (build_site.py lines
221-230). -/
def htmlPost : String :=
"
          </tbody>
        </table>
      </div>
    </section>
    <p class=\"footer\">此頁由 <code>build_site.py</code> 依 <code>review_responses.tsv</code> 自動產生。</p>
  </main>
</body>
</html>
"

/-- `build_html` (build_site.py lines 74-230): the template with the
`<tr>` blocks joined by newlines in place of `{chr(10).join(table_rows)}`. -/
def build_html (rows : List (String × String × String)) : String :=
  htmlPre ++ String.intercalate "\n" (rows.map table_row) ++ htmlPost

/-- `main` (build_site.py lines 233-241).  The input file is given as its
lines; the result is `Except.error msg` for `raise SystemExit(msg)` (a
non-zero exit, reached before any directory or file is touched), or
`Except.ok (docs_index, root_index)` for the two `write_text` calls, which
both receive the same `html_content`. -/
def mainRun (lines : List String) : Except String (String × String) :=
  let rows := parse_rows lines
  if rows.isEmpty then Except.error "No rows found in review_responses.tsv"
  else
    let html_content := build_html rows
    Except.ok (html_content, html_content)

/-! ## Predicates and builders used to state the claims -/

/-- No position of the list starts a clause marker `(?<!\d)\d+\.\s+`;
`prevD` tells whether the character before the list is a digit. -/
def noMarkerScan : Bool → List Char → Bool
  | _, [] => true
  | prevD, c :: r => !markerHead prevD (c :: r) && noMarkerScan c.isDigit r

/-- No position inside the region starts a clause marker of the full text
`region ++ k`. -/
def noStartIn : Bool → List Char → List Char → Bool
  | _, [], _ => true
  | prevD, c :: r, k =>
    !markerHead prevD (c :: (r ++ k)) && noStartIn c.isDigit r k

/-- The text of one numbered clause: digits, period, space, body. -/
def clauseL (ds b : List Char) : List Char := ds ++ '.' :: ' ' :: b

/-- A well-formed clause: a non-empty digit string, and a non-empty body
that is trimmed, newline-free, and (in its following-space context)
contains no embedded clause marker. -/
def clauseOkB (ds b : List Char) : Bool :=
  !ds.isEmpty && ds.all Char.isDigit &&
  (match b with | [] => false | c :: _ => !isPyWs c) &&
  (match b.getLast? with | none => false | some c => !isPyWs c) &&
  b.all (fun c => !decide (c = '\n')) &&
  noMarkerScan false (b ++ [' '])

/-- A sequence of numbered clauses joined by single spaces. -/
def clausesText : List (List Char × List Char) → List Char
  | [] => []
  | [p] => clauseL p.1 p.2
  | p :: ps => clauseL p.1 p.2 ++ ' ' :: clausesText ps

/-- The matches `re.findall` produces on `clausesText`: every clause with
its separating space, the last one bare. -/
def clauseItems : List (List Char × List Char) → List (List Char)
  | [] => []
  | [p] => [clauseL p.1 p.2]
  | p :: ps => (clauseL p.1 p.2 ++ [' ']) :: clauseItems ps

/-! ## Helper lemmas -/

example : to_bullets "1. A 2. B 3. C" = ["1. A", "2. B", "3. C"] := by decide

example : to_bullets "1. A\n2. B" = ["2. B"] := by decide

example : to_bullets "line1\nline2" = ["line1", "line2"] := by decide

example : to_bullets "" = [] := by decide

example : split_response_and_page "R。頁碼：P。" = ("R", "P") := by decide

example : split_response_and_page "R。頁碼：" = ("R", "第＿＿＿頁至第＿＿＿頁") := by
  decide

example : parse_rows ["審查意見\t修正情形"] = [] := by decide

example :
    parse_rows ["審查意見\t修正情形", "意見一\t已修正內容。頁碼：第5頁。"] =
      [("意見一", "已修正內容", "第5頁")] := by decide


theorem rsplitMarker_of_not_occurs :
    ∀ l : List Char, occursMarker l = false → rsplitMarker l = none := by
  intro l
  induction l with
  | nil => intro _; rfl
  | cons c r ih =>
    intro h
    rw [occursMarker] at h
    rcases Bool.or_eq_false_iff.mp h with ⟨h1, h2⟩
    rw [rsplitMarker, ih h2, h1]
    rfl

theorem occursMarker_tail2 (b : List Char) (hb : occursMarker b = false) :
    occursMarker ('碼' :: '：' :: b) = false := by
  rw [occursMarker]
  rw [show isPref markerChars ('碼' :: '：' :: b) = false from rfl]
  rw [occursMarker]
  rw [show isPref markerChars ('：' :: b) = false from rfl]
  rw [hb]
  rfl

theorem rsplitMarker_append (a b : List Char) (hb : occursMarker b = false) :
    rsplitMarker (a ++ markerChars ++ b) = some (a, b) := by
  induction a with
  | nil =>
    have h2 : rsplitMarker ('碼' :: '：' :: b) = none :=
      rsplitMarker_of_not_occurs _ (occursMarker_tail2 b hb)
    show rsplitMarker ('頁' :: '碼' :: '：' :: b) = some ([], b)
    rw [rsplitMarker, h2]
    rw [show isPref markerChars ('頁' :: '碼' :: '：' :: b) = true from rfl]
    rfl
  | cons c a' ih =>
    show rsplitMarker (c :: (a' ++ markerChars ++ b)) = some (c :: a', b)
    rw [rsplitMarker, ih]

theorem brList_append (a b : List Char) :
    brList (a ++ b) = brList a ++ brList b := by
  induction a with
  | nil => rfl
  | cons c r ih => simp [brList, ih]

theorem escapedOk_cons_other (c : Char) (h1 : c ≠ '<') (h2 : c ≠ '&')
    (t : List Char) : escapedOk (c :: t) = escapedOk t := by
  show escAuto [] (c :: t) = escAuto [] t
  rw [escAuto.eq_def]
  dsimp only
  rw [if_neg h1, if_neg h2]

/-! ## Claim C7: empty or whitespace-only input -/

/-- C7: on empty or whitespace-only input `to_bullets` returns the empty
sequence, and `list_html` renders it as the empty list container rather
than an error. -/
theorem C7_empty_input (s : String) (h : stripChars s.data = []) :
    to_bullets s = [] ∧ list_html s = "<ul class=\"cell-list\"></ul>" := by
  have ht : to_bullets s = [] := by
    simp [to_bullets, toBulletsL, h]
  refine ⟨ht, ?_⟩
  unfold list_html
  rw [ht]
  rfl

/-- Witness for C7 at the whitespace-only input `"  "`. -/
theorem C7_witness :
    to_bullets "  " = [] ∧ list_html "  " = "<ul class=\"cell-list\"></ul>" :=
  C7_empty_input "  " (by decide)

/-! ## Claim C3: the page component is never empty -/

/-- C3: when the marker is absent the result is the trimmed text together
with the placeholder; when the marker is present but the page portion is
empty after trimming and full-stop stripping, the specific placeholder
`"第＿＿＿頁至第＿＿＿頁"` is substituted; and the page component of
`split_response_and_page` is never the empty string. -/
theorem C3_page_never_empty :
    (∀ s : String, occursMarker s.data = false →
      split_response_and_page s = (pyStrip s, "第＿＿＿頁至第＿＿＿頁")) ∧
    (∀ a b : String, occursMarker b.data = false →
      rstripStop (stripChars b.data) = [] →
      split_response_and_page (a ++ "頁碼：" ++ b) =
        (String.mk (rstripStop (stripChars a.data)), "第＿＿＿頁至第＿＿＿頁")) ∧
    (∀ s : String, (split_response_and_page s).2 ≠ "") := by
  refine ⟨?_, ?_, ?_⟩
  · intro s h
    rw [split_response_and_page, rsplitMarker_of_not_occurs s.data h]
    rfl
  · intro a b hb hp
    have hd : (a ++ "頁碼：" ++ b).data = a.data ++ markerChars ++ b.data := by
      rw [String.data_append, String.data_append]
      rfl
    unfold split_response_and_page
    rw [hd, rsplitMarker_append a.data b.data hb]
    show (String.mk (rstripStop (stripChars a.data)),
        if rstripStop (stripChars b.data) = [] then "第＿＿＿頁至第＿＿＿頁"
        else String.mk (rstripStop (stripChars b.data))) = _
    rw [if_pos hp]
  · intro s
    rcases hr : rsplitMarker s.data with _ | ⟨left, right⟩
    · simp only [split_response_and_page, hr]
      decide
    · simp only [split_response_and_page, hr]
      split
      · decide
      · rename_i hpage
        intro hc
        apply hpage
        have := congrArg String.data hc
        simpa using this

/-- Witness for C3: the marker-free input `"abc"`, and the input
`"R。頁碼：。"` whose page portion strips to empty and receives the
placeholder. -/
theorem C3_witness :
    split_response_and_page "abc" = (pyStrip "abc", "第＿＿＿頁至第＿＿＿頁") ∧
      split_response_and_page ("R。" ++ "頁碼：" ++ "。") =
        (String.mk (rstripStop (stripChars "R。".data)),
          "第＿＿＿頁至第＿＿＿頁") :=
  ⟨C3_page_never_empty.1 "abc" (by decide),
    C3_page_never_empty.2.1 "R。" "。" (by decide) (by decide)⟩

/-! ## Claim C5: empty dataset aborts before any output -/

/-- C5: when parsing yields no valid rows, the run ends in the fatal
`SystemExit` with the descriptive message, before any output content is
produced (`mainRun` only returns write contents on the `ok` path, which
is not reached). -/
theorem C5_empty_rows_abort (lines : List String)
    (h : parse_rows lines = []) :
    mainRun lines = Except.error "No rows found in review_responses.tsv" := by
  simp [mainRun, h]

/-- Witness for C5: an input file holding only a header row. -/
theorem C5_witness :
    mainRun ["審查意見\t修正情形"] =
      Except.error "No rows found in review_responses.tsv" :=
  C5_empty_rows_abort _ (by decide)

/-! ## Claim C9: determinism and identical dual output -/

/-- C9: the pipeline is a pure function of the input lines — `mainRun` is
deterministic by construction, the template contains no run-varying data —
and whenever it succeeds, both output locations receive one and the same
document, namely `build_html` of the parsed rows. -/
theorem C9_deterministic_dual_write (lines : List String)
    (doc root : String) (h : mainRun lines = Except.ok (doc, root)) :
    doc = root ∧ doc = build_html (parse_rows lines) := by
  simp only [mainRun] at h
  split at h
  · exact absurd h (by simp)
  · simp only [Except.ok.injEq, Prod.mk.injEq] at h
    exact ⟨h.1.symm.trans h.2, h.1.symm⟩

/-- Witness for C9 at a two-line input (header plus one data row). -/
theorem C9_witness :
    build_html (parse_rows ["h", "o\tr"]) =
        build_html (parse_rows ["h", "o\tr"]) ∧
      build_html (parse_rows ["h", "o\tr"]) =
        build_html (parse_rows ["h", "o\tr"]) := by
  apply C9_deterministic_dual_write ["h", "o\tr"]
  simp only [mainRun]
  rw [if_neg (by decide : ¬((parse_rows ["h", "o\tr"]).isEmpty = true))]

/-! ## Claim C4: escaping precedes line-break substitution -/

theorem escapedOk_brList_escList (l : List Char) :
    escapedOk (brList (escList l)) = true := by
  induction l with
  | nil => rfl
  | cons c r ih =>
    rw [escList, brList_append]
    by_cases h1 : c = '&'
    · subst h1
      rw [show brList (escChar '&') = ['&', 'a', 'm', 'p', ';'] from rfl]
      exact (show ∀ t, escapedOk ('&' :: 'a' :: 'm' :: 'p' :: ';' :: t) =
        escapedOk t from fun _ => rfl) _ ▸ ih
    by_cases h2 : c = '<'
    · subst h2
      rw [show brList (escChar '<') = ['&', 'l', 't', ';'] from rfl]
      exact (show ∀ t, escapedOk ('&' :: 'l' :: 't' :: ';' :: t) =
        escapedOk t from fun _ => rfl) _ ▸ ih
    by_cases h3 : c = '>'
    · subst h3
      rw [show brList (escChar '>') = ['&', 'g', 't', ';'] from rfl]
      exact (show ∀ t, escapedOk ('&' :: 'g' :: 't' :: ';' :: t) =
        escapedOk t from fun _ => rfl) _ ▸ ih
    by_cases h4 : c = '"'
    · subst h4
      rw [show brList (escChar '"') = ['&', 'q', 'u', 'o', 't', ';'] from rfl]
      exact (show ∀ t, escapedOk ('&' :: 'q' :: 'u' :: 'o' :: 't' :: ';' :: t) =
        escapedOk t from fun _ => rfl) _ ▸ ih
    by_cases h5 : c = '\''
    · subst h5
      rw [show brList (escChar '\'') = ['&', '#', 'x', '2', '7', ';'] from rfl]
      exact (show ∀ t, escapedOk ('&' :: '#' :: 'x' :: '2' :: '7' :: ';' :: t) =
        escapedOk t from fun _ => rfl) _ ▸ ih
    by_cases h6 : c = '\n'
    · subst h6
      rw [show brList (escChar '\n') = ['<', 'b', 'r', '>'] from rfl]
      exact (show ∀ t, escapedOk ('<' :: 'b' :: 'r' :: '>' :: t) =
        escapedOk t from fun _ => rfl) _ ▸ ih
    · rw [show escChar c = [c] by simp [escChar, h1, h2, h3, h4, h5]]
      rw [show brList [c] = [c] by simp [brList, h6]]
      rw [List.singleton_append, escapedOk_cons_other c h2 h1]
      exact ih

/-- C4: `linebreak_to_html` escapes the five reserved characters first and
replaces newlines afterwards, so its output never contains an unescaped
`<` or `&` coming from the input text: every `<` in the output starts an
inserted `"<br>"` and every `&` starts one of the five escape entities. -/
theorem C4_escaping_precedes_linebreaks (s : String) :
    escapedOk (linebreak_to_html s).data = true :=
  escapedOk_brList_escList s.data

/-! ## Stripping lemmas -/

theorem head_dropWhile_false (p : Char → Bool) :
    ∀ (l : List Char) (c : Char), (l.dropWhile p).head? = some c →
      p c = false := by
  intro l
  induction l with
  | nil => intro c hc; simp at hc
  | cons x r ih =>
    intro c hc
    rw [List.dropWhile_cons] at hc
    by_cases hx : p x
    · rw [if_pos hx] at hc; exact ih c hc
    · rw [if_neg hx] at hc
      simp only [List.head?_cons, Option.some.injEq] at hc
      subst hc
      simpa using hx

theorem dropWhile_eq_self_of_head (p : Char → Bool) (l : List Char)
    (h : ∀ c, l.head? = some c → p c = false) : l.dropWhile p = l := by
  cases l with
  | nil => rfl
  | cons x r => rw [List.dropWhile_cons, if_neg (by simp [h x rfl])]

theorem stripTrail_decomp (p : Char → Bool) (x : List Char) :
    x = (x.reverse.dropWhile p).reverse ++ (x.reverse.takeWhile p).reverse := by
  have h := List.takeWhile_append_dropWhile p x.reverse
  have h2 := congrArg List.reverse h
  rw [List.reverse_append, List.reverse_reverse] at h2
  exact h2.symm

theorem stripChars_head (l : List Char) :
    ∀ c, (stripChars l).head? = some c → isPyWs c = false := by
  intro c hc
  rcases hsl : stripChars l with _ | ⟨c0, rest⟩
  · rw [hsl] at hc; simp at hc
  · rw [hsl] at hc
    simp only [List.head?_cons, Option.some.injEq] at hc
    subst hc
    have hm := stripTrail_decomp isPyWs (l.dropWhile isPyWs)
    rw [show ((l.dropWhile isPyWs).reverse.dropWhile isPyWs).reverse =
          stripChars l from rfl, hsl] at hm
    exact head_dropWhile_false isPyWs l c0 (by rw [hm]; rfl)

theorem stripChars_last (l : List Char) :
    ∀ c, (stripChars l).getLast? = some c → isPyWs c = false := by
  intro c hc
  rw [← List.head?_reverse] at hc
  rw [show (stripChars l).reverse =
        (l.dropWhile isPyWs).reverse.dropWhile isPyWs by simp [stripChars]] at hc
  exact head_dropWhile_false isPyWs (l.dropWhile isPyWs).reverse c hc

theorem stripChars_idem (l : List Char) :
    stripChars (stripChars l) = stripChars l := by
  have h1 := dropWhile_eq_self_of_head isPyWs (stripChars l) (stripChars_head l)
  have h2 := dropWhile_eq_self_of_head isPyWs (stripChars l).reverse
    (fun c hc => stripChars_last l c (by rw [← List.head?_reverse]; exact hc))
  show (((stripChars l).dropWhile isPyWs).reverse.dropWhile isPyWs).reverse =
    stripChars l
  rw [h1, h2, List.reverse_reverse]

theorem pyStrip_idem (s : String) : pyStrip (pyStrip s) = pyStrip s := by
  unfold pyStrip
  rw [show (String.mk (stripChars s.data)).data = stripChars s.data from rfl,
    stripChars_idem]

/-! ## Claim C2: splitting at the last page marker -/

/-- C2 (corrected): when the marker occurs, the text is split at its last
occurrence, each part is trimmed and stripped of trailing full stops, and
— the correction — the placeholder is substituted when the page part
comes out empty. -/
theorem C2_amended_split_last_marker (a b : String)
    (hb : occursMarker b.data = false) :
    split_response_and_page (a ++ "頁碼：" ++ b) =
      (String.mk (rstripStop (stripChars a.data)),
        if rstripStop (stripChars b.data) = [] then "第＿＿＿頁至第＿＿＿頁"
        else String.mk (rstripStop (stripChars b.data))) := by
  have hd : (a ++ "頁碼：" ++ b).data = a.data ++ markerChars ++ b.data := by
    rw [String.data_append, String.data_append]
    rfl
  unfold split_response_and_page
  rw [hd, rsplitMarker_append a.data b.data hb]

/-- C2 as stated is false at `"R。頁碼："`: the text after the marker is
empty, so the claimed second component would be the empty string, but the
code substitutes the placeholder. -/
theorem C2_counterexample :
    split_response_and_page "R。頁碼：" = ("R", "第＿＿＿頁至第＿＿＿頁") ∧
      (split_response_and_page "R。頁碼：").2 ≠ "" := by decide

/-- Witness for C2 at the spec's example input. -/
theorem C2_witness : split_response_and_page "R。頁碼：P。" = ("R", "P") := by
  have h := C2_amended_split_last_marker "R。" "P。" (by decide)
  have e : ("R。" ++ "頁碼：" ++ "P。" : String) = "R。頁碼：P。" := by decide
  rw [e] at h
  rw [h]
  decide

/-! ## Claim C8: the row reader -/

theorem splitTab_ne_nil : ∀ l : List Char, splitTab l ≠ [] := by
  intro l
  cases l with
  | nil => simp [splitTab]
  | cons c r =>
    rw [splitTab]
    by_cases hc : c = '\t'
    · simp [hc]
    · rw [if_neg hc]
      cases h : splitTab r with
      | nil => simp
      | cons x xs => simp

theorem readTsvLine_ne_nil (h : String) (hh : h ≠ "") : readTsvLine h ≠ [] := by
  unfold readTsvLine
  rw [if_neg hh]
  simpa using splitTab_ne_nil h.data

theorem parseLoop_nil_row (hs : Bool) (t : List (List String)) :
    parseLoop hs ([] :: t) = parseLoop hs t := rfl

theorem parseLoop_skip_blank (hs : Bool) :
    ∀ (pre : List String), (∀ l ∈ pre, l = "") →
      ∀ rows : List (List String),
        parseLoop hs (pre.map readTsvLine ++ rows) = parseLoop hs rows := by
  intro pre
  induction pre with
  | nil => intro _ rows; rfl
  | cons x xs ih =>
    intro hp rows
    have hx : x = "" := hp x (by simp)
    subst hx
    rw [List.map_cons, List.cons_append,
      show readTsvLine "" = [] from rfl, parseLoop_nil_row]
    exact ih (fun l hl => hp l (by simp [hl])) rows

theorem parseLoop_header (row : List String) (hrow : row ≠ [])
    (rest : List (List String)) :
    parseLoop false (row :: rest) = parseLoop true rest := by
  rcases row with _ | ⟨f, fs⟩
  · exact absurd rfl hrow
  · rfl

theorem parseLoop_cons_data (f0 f1 : String) (t : List String)
    (rows : List (List String)) :
    parseLoop true ((f0 :: f1 :: t) :: rows) =
      if pyStrip f0 ≠ "" ∧ pyStrip f1 ≠ "" then
        (pyStrip f0, split_response_and_page (pyStrip f1)) ::
          parseLoop true rows
      else parseLoop true rows := rfl

theorem parseLoop_short (row : List String) (rows : List (List String))
    (h : row.length < 2) :
    parseLoop true (row :: rows) = parseLoop true rows := by
  rcases row with _ | ⟨f, fs⟩
  · rfl
  · rcases fs with _ | ⟨f2, fs2⟩
    · rfl
    · simp only [List.length_cons] at h
      omega

theorem parse_rows_header (pre : List String) (h : String)
    (rest : List String) (hpre : ∀ l ∈ pre, l = "") (hh : h ≠ "") :
    parse_rows (pre ++ h :: rest) = parseLoop true (rest.map readTsvLine) := by
  unfold parse_rows
  rw [List.map_append, parseLoop_skip_blank false pre hpre, List.map_cons]
  exact parseLoop_header (readTsvLine h) (readTsvLine_ne_nil h hh) _

theorem parseLoop_mem :
    ∀ (rows : List (List String)) (r : String × String × String),
      r ∈ parseLoop true rows →
      r.1 ≠ "" ∧ pyStrip r.1 = r.1 ∧ ∃ row ∈ rows, 2 ≤ row.length := by
  intro rows
  induction rows with
  | nil => intro r hr; simp [parseLoop] at hr
  | cons row rest ih =>
    intro r hr
    have weaken : (∃ row' ∈ rest, 2 ≤ row'.length) →
        ∃ row' ∈ row :: rest, 2 ≤ row'.length := by
      rintro ⟨w, hw, hlen⟩
      exact ⟨w, List.mem_cons_of_mem _ hw, hlen⟩
    rcases row with _ | ⟨f0, fs⟩
    · rw [parseLoop_nil_row] at hr
      obtain ⟨h1, h2, h3⟩ := ih r hr
      exact ⟨h1, h2, weaken h3⟩
    · rcases fs with _ | ⟨f1, fs2⟩
      · rw [parseLoop_short [f0] rest (by simp)] at hr
        obtain ⟨h1, h2, h3⟩ := ih r hr
        exact ⟨h1, h2, weaken h3⟩
      · rw [parseLoop_cons_data] at hr
        by_cases hc : pyStrip f0 ≠ "" ∧ pyStrip f1 ≠ ""
        · rw [if_pos hc] at hr
          rcases List.mem_cons.mp hr with heq | hmem
          · subst heq
            refine ⟨hc.1, pyStrip_idem f0, ?_⟩
            exact ⟨f0 :: f1 :: fs2, by simp,
              by simp only [List.length_cons]; omega⟩
          · obtain ⟨h1, h2, h3⟩ := ih r hmem
            exact ⟨h1, h2, weaken h3⟩
        · rw [if_neg hc] at hr
          obtain ⟨h1, h2, h3⟩ := ih r hr
          exact ⟨h1, h2, weaken h3⟩

/-- C8: the row reader discards the first non-empty line as a header,
splits data lines on the tab character, silently skips lines with fewer
than two fields and lines whose first two fields trim to empty, trims the
two retained fields, and every output row has a non-empty trimmed opinion
and comes from a data line with at least two fields. -/
theorem C8_row_reader :
    (∀ (pre : List String) (h : String) (rest : List String),
        (∀ l ∈ pre, l = "") → h ≠ "" →
        parse_rows (pre ++ h :: rest) = parseLoop true (rest.map readTsvLine)) ∧
    (∀ (row : List String) (rows : List (List String)), row.length < 2 →
        parseLoop true (row :: rows) = parseLoop true rows) ∧
    (∀ (f0 f1 : String) (t : List String) (rows : List (List String)),
        pyStrip f0 = "" ∨ pyStrip f1 = "" →
        parseLoop true ((f0 :: f1 :: t) :: rows) = parseLoop true rows) ∧
    (∀ (f0 f1 : String) (t : List String) (rows : List (List String)),
        pyStrip f0 ≠ "" → pyStrip f1 ≠ "" →
        parseLoop true ((f0 :: f1 :: t) :: rows) =
          (pyStrip f0, split_response_and_page (pyStrip f1)) ::
            parseLoop true rows) ∧
    (∀ (rows : List (List String)) (r : String × String × String),
        r ∈ parseLoop true rows →
        r.1 ≠ "" ∧ pyStrip r.1 = r.1 ∧ ∃ row ∈ rows, 2 ≤ row.length) := by
  refine ⟨parse_rows_header, parseLoop_short, ?_, ?_, parseLoop_mem⟩
  · intro f0 f1 t rows h
    rw [parseLoop_cons_data, if_neg]
    rcases h with h | h <;> simp [h]
  · intro f0 f1 t rows h1 h2
    rw [parseLoop_cons_data, if_pos ⟨h1, h2⟩]

/-- Witness for C8, instantiating each clause at concrete rows. -/
theorem C8_witness :
    parse_rows ["", "a\tb", "x\ty"] =
        parseLoop true [readTsvLine "x\ty"] ∧
      parseLoop true [["only"]] = parseLoop true [] ∧
      parseLoop true [[" ", "r"]] = parseLoop true [] ∧
      parseLoop true [[" o ", " r "]] =
        [(pyStrip " o ", split_response_and_page (pyStrip " r "))] ∧
      (("o", split_response_and_page "r") : String × String × String).1 ≠ "" := by
  refine ⟨C8_row_reader.1 [""] "a\tb" ["x\ty"] (by simp) (by decide),
    C8_row_reader.2.1 ["only"] [] (by simp),
    C8_row_reader.2.2.1 " " "r" [] [] (by left; decide),
    ?_, ?_⟩
  · have h := C8_row_reader.2.2.2.1 " o " " r " [] [] (by decide) (by decide)
    rw [h]
    rfl
  · exact (C8_row_reader.2.2.2.2 [["o", "r"]]
      ("o", split_response_and_page "r") (by decide)).1

/-! ## Claim C6: the newline fallback of `to_bullets` -/

/-- C6 as stated is false at a whitespace-only input: its final clause
covers texts with at most one non-empty segment and asks for the entire
trimmed text as a single item, but on `""` the code returns the empty
sequence, not `[""]`. -/
theorem C6_counterexample :
    to_bullets "" = [] ∧ ([] : List String) ≠ [""] := by decide

/-- C6 (corrected): on a text whose trimmed form is non-empty and matches
no numbered clause, `to_bullets` returns the trimmed non-empty
newline-separated segments when there are at least two of them, and
otherwise the entire trimmed text as a single item. -/
theorem C6_amended_newline_split (s : String)
    (h0 : stripChars s.data ≠ [])
    (h1 : pyFindall (stripChars s.data) = []) :
    to_bullets s =
      if 1 < (((splitNl (stripChars s.data)).map stripChars).filter
          (fun seg => !seg.isEmpty)).length then
        (((splitNl (stripChars s.data)).map stripChars).filter
          (fun seg => !seg.isEmpty)).map String.mk
      else [String.mk (stripChars s.data)] := by
  have hE : (stripChars s.data).isEmpty = false := by
    cases hh : stripChars s.data with
    | nil => exact absurd hh h0
    | cons a b => rfl
  simp only [to_bullets, toBulletsL, hE, h1]
  simp only [Bool.false_eq_true, if_false, List.isEmpty_nil, Bool.not_true]
  rw [apply_ite (List.map String.mk)]
  simp

/-- Witness for C6 at the spec's example input. -/
theorem C6_witness : to_bullets "line1\nline2" = ["line1", "line2"] := by
  have h := C6_amended_newline_split "line1\nline2" (by decide) (by decide)
  rw [h]
  decide

/-! ## Claim C1: splitting a sequence of numbered clauses -/

/-- C1 as stated is false when a clause body contains a newline: the
regex's `.` cannot cross it, so on `"1. A\n2. B"` — two numbered clauses —
`findall` drops the first clause entirely and `to_bullets` returns a
single item. -/
theorem C1_counterexample :
    to_bullets "1. A\n2. B" = ["2. B"] ∧
      (to_bullets "1. A\n2. B").length = 1 := by decide

theorem digit_not_ws (c : Char) (h : c.isDigit = true) : isPyWs c = false := by
  cases hw : isPyWs c
  · rfl
  · exfalso
    unfold isPyWs at hw
    simp only [Bool.or_eq_true, decide_eq_true_eq] at hw
    rcases hw with ((((h1 | h1) | h1) | h1) | h1) | h1 <;>
      (subst h1; exact absurd h (by decide))

theorem ws_not_digit (c : Char) (h : isPyWs c = true) : c.isDigit = false := by
  cases hd : c.isDigit
  · rfl
  · exact absurd h (by rw [digit_not_ws c hd]; decide)

/-- The marker test only looks at the text up to its first space: the
text after a space separator is irrelevant. -/
theorem dotWs_space_ctx (a b : List Char) :
    dotWs (a ++ ' ' :: b) = dotWs (a ++ [' ']) := by
  rcases a with _ | ⟨c1, _ | ⟨c2, a2⟩⟩
  · cases b <;> rfl
  · rfl
  · rfl

theorem digitsThen_space_ctx (a b : List Char) :
    digitsThen (a ++ ' ' :: b) = digitsThen (a ++ [' ']) := by
  induction a with
  | nil =>
    show digitsThen (' ' :: b) = digitsThen [' ']
    rw [digitsThen, digitsThen, if_neg (by decide), if_neg (by decide)]
    exact dotWs_space_ctx [] b
  | cons c a' ih =>
    show digitsThen (c :: (a' ++ ' ' :: b)) = digitsThen (c :: (a' ++ [' ']))
    rw [digitsThen, digitsThen]
    by_cases hc : c.isDigit
    · rw [if_pos hc, if_pos hc]; exact ih
    · rw [if_neg hc, if_neg hc]; exact dotWs_space_ctx (c :: a') b

theorem markerHead_space_ctx (p : Bool) (a b : List Char) :
    markerHead p (a ++ ' ' :: b) = markerHead p (a ++ [' ']) := by
  rcases a with _ | ⟨c, a'⟩
  · show markerHead p (' ' :: b) = markerHead p [' ']
    rw [markerHead, markerHead]
    simp [show (' ' : Char).isDigit = false by decide]
  · show markerHead p (c :: (a' ++ ' ' :: b)) = markerHead p (c :: (a' ++ [' ']))
    rw [markerHead, markerHead, digitsThen_space_ctx a' b]

/-- A successful marker test stays successful under extension of the
text. -/
theorem dotWs_extend (l t : List Char) (h : dotWs l = true) :
    dotWs (l ++ t) = true := by
  rcases l with _ | ⟨c, _ | ⟨d, r⟩⟩
  · exact absurd h (by decide)
  · exact Bool.noConfusion (show false = true from h)
  · exact h

theorem digitsThen_extend (l t : List Char) (h : digitsThen l = true) :
    digitsThen (l ++ t) = true := by
  induction l with
  | nil => exact absurd h (by decide)
  | cons c r ih =>
    rw [digitsThen] at h
    show digitsThen (c :: (r ++ t)) = true
    rw [digitsThen]
    by_cases hc : c.isDigit
    · rw [if_pos hc] at h
      rw [if_pos hc]
      exact ih h
    · rw [if_neg hc] at h
      rw [if_neg hc]
      exact dotWs_extend (c :: r) t h

theorem markerHead_extend (p : Bool) (l t : List Char)
    (h : markerHead p l = true) : markerHead p (l ++ t) = true := by
  rcases l with _ | ⟨c, r⟩
  · exact Bool.noConfusion (show false = true from h)
  · rw [markerHead] at h
    show markerHead p (c :: (r ++ t)) = true
    rw [markerHead]
    simp only [Bool.and_eq_true] at h ⊢
    exact ⟨h.1, digitsThen_extend r t h.2⟩

/-- A digit string followed by a period and whitespace is a marker. -/
theorem digitsThen_digits (ds : List Char) (hds : ds.all Char.isDigit = true)
    (c : Char) (hc : isPyWs c = true) (r : List Char) :
    digitsThen (ds ++ '.' :: c :: r) = true := by
  induction ds with
  | nil =>
    show digitsThen ('.' :: c :: r) = true
    rw [digitsThen, if_neg (by decide)]
    simp [dotWs, hc]
  | cons d ds' ih =>
    simp only [List.all_cons, Bool.and_eq_true] at hds
    show digitsThen (d :: (ds' ++ '.' :: c :: r)) = true
    rw [digitsThen, if_pos hds.1]
    exact ih hds.2

theorem markerHead_clause (ds : List Char) (hne : ds ≠ [])
    (hds : ds.all Char.isDigit = true) (c : Char) (hc : isPyWs c = true)
    (r : List Char) : markerHead false (ds ++ '.' :: c :: r) = true := by
  rcases ds with _ | ⟨d, ds'⟩
  · exact absurd rfl hne
  · simp only [List.all_cons, Bool.and_eq_true] at hds
    show markerHead false (d :: (ds' ++ '.' :: c :: r)) = true
    rw [markerHead]
    simp [hds.1, digitsThen_digits ds' hds.2 c hc r]

theorem markerHead_ws_head (p : Bool) (c : Char) (hc : isPyWs c = true)
    (r : List Char) : markerHead p (c :: r) = false := by
  rw [markerHead, ws_not_digit c hc]
  simp

theorem lookOk_false_of (p : Bool) (c : Char) (r : List Char)
    (h1 : c :: r ≠ ['\n']) (h2 : markerHead p (c :: r) = false) :
    lookOk p (c :: r) = false := by
  unfold lookOk
  rw [h2, decide_eq_false h1]
  rfl

theorem lookOk_true_of_marker (p : Bool) (l : List Char)
    (h : markerHead p l = true) : lookOk p l = true := by
  unfold lookOk
  rw [h]
  simp

/-- Lazy content over a marker-free, newline-free body followed by the
space separator stops exactly at the next clause. -/
theorem contentRun_body :
    ∀ (d : List Char) (p : Bool) (next : List Char),
      (∀ c ∈ d, ¬(c = '\n')) → noMarkerScan p (d ++ [' ']) = true →
      markerHead false next = true → next ≠ [] →
      contentRun p (d ++ ' ' :: next) = some (d ++ [' '], next) := by
  intro d
  induction d with
  | nil =>
    intro p next _ _ hmk hne
    show contentRun p (' ' :: next) = some ([' '], next)
    rw [contentRun]
    rw [lookOk_false_of p ' ' next
      (by intro hx; injection hx with hx1 _; exact absurd hx1 (by decide))
      (markerHead_ws_head p ' ' (by decide) next)]
    simp only [Bool.false_eq_true, if_false]
    rw [if_neg (by decide : ¬((' ' : Char) = '\n'))]
    rcases next with _ | ⟨n, nr⟩
    · exact absurd rfl hne
    · rw [show contentRun (' ' : Char).isDigit (n :: nr) =
          some ([], n :: nr) by
        rw [contentRun, lookOk_true_of_marker ((' ' : Char).isDigit)
          (n :: nr) hmk]
        simp]
  | cons c d' ih =>
    intro p next hnl hnm hmk hne
    have hc_nl : ¬(c = '\n') := hnl c (by simp)
    have hnm' := hnm
    rw [show (c :: d') ++ [' '] = c :: (d' ++ [' ']) from rfl,
      noMarkerScan] at hnm'
    simp only [Bool.and_eq_true, Bool.not_eq_true'] at hnm'
    show contentRun p (c :: (d' ++ ' ' :: next)) =
      some (c :: (d' ++ [' ']), next)
    rw [contentRun]
    have hlk : lookOk p (c :: (d' ++ ' ' :: next)) = false := by
      apply lookOk_false_of
      · intro hx
        have := congrArg List.length hx
        simp only [List.length_cons, List.length_append,
          List.length_nil] at this
        omega
      · rw [show c :: (d' ++ ' ' :: next) = (c :: d') ++ ' ' :: next from rfl,
          markerHead_space_ctx p (c :: d') next]
        exact hnm'.1
    rw [hlk]
    simp only [Bool.false_eq_true, if_false]
    rw [if_neg hc_nl]
    rw [ih c.isDigit next (fun x hx => hnl x (by simp [hx])) hnm'.2 hmk hne]

/-- Lazy content over a marker-free, newline-free final body runs to the
end of the string. -/
theorem contentRun_last :
    ∀ (d : List Char) (p : Bool),
      (∀ c ∈ d, ¬(c = '\n')) → noMarkerScan p (d ++ [' ']) = true →
      contentRun p d = some (d, []) := by
  intro d
  induction d with
  | nil => intro p _ _; rfl
  | cons c d' ih =>
    intro p hnl hnm
    have hc_nl : ¬(c = '\n') := hnl c (by simp)
    rw [show (c :: d') ++ [' '] = c :: (d' ++ [' ']) from rfl,
      noMarkerScan] at hnm
    simp only [Bool.and_eq_true, Bool.not_eq_true'] at hnm
    rw [contentRun]
    have hmk : markerHead p (c :: d') = false := by
      cases hq : markerHead p (c :: d')
      · rfl
      · exfalso
        have hext := markerHead_extend p (c :: d') [' '] hq
        rw [show (c :: d') ++ [' '] = c :: (d' ++ [' ']) from rfl,
          hnm.1] at hext
        exact Bool.noConfusion hext
    rw [lookOk_false_of p c d'
      (by intro hx; injection hx with hx1 _; exact hc_nl hx1) hmk]
    simp only [Bool.false_eq_true, if_false]
    rw [if_neg hc_nl]
    rw [ih c.isDigit (fun x hx => hnl x (by simp [hx])) hnm.2]

theorem takeWhile_nil_of_head (p : Char → Bool) (l : List Char)
    (h : ∀ c, l.head? = some c → p c = false) : l.takeWhile p = [] := by
  cases l with
  | nil => rfl
  | cons x r => rw [List.takeWhile_cons, if_neg (by simp [h x rfl])]

theorem matchTail_cons (c : Char) (r : List Char) :
    matchTail (c :: r) =
      if c.isDigit then
        match matchTail r with
        | some (m, rem) => some (c :: m, rem)
        | none => none
      else if c = '.' then
        match r with
        | [] => none
        | x :: r' =>
          if isPyWs x then
            match contentRun false (r'.dropWhile isPyWs) with
            | some (cs, rem) =>
              some ('.' :: x :: (r'.takeWhile isPyWs ++ cs), rem)
            | none => none
          else none
      else none := rfl

/-- One full regex match over a clause: the digits after the first one,
the period, the single separating space, then the lazy content. -/
theorem matchTail_clause :
    ∀ ds2 : List Char, ds2.all Char.isDigit = true →
      ∀ body tail cs rem : List Char, body ≠ [] →
        (∀ c, body.head? = some c → isPyWs c = false) →
        contentRun false (body ++ tail) = some (cs, rem) →
        matchTail (ds2 ++ '.' :: ' ' :: (body ++ tail)) =
          some (ds2 ++ '.' :: ' ' :: cs, rem) := by
  intro ds2
  induction ds2 with
  | nil =>
    intro _ body tail cs rem hbne hbhead hcr
    show matchTail ('.' :: ' ' :: (body ++ tail)) =
      some ('.' :: ' ' :: cs, rem)
    rw [matchTail]
    rw [if_neg (by decide : ¬(('.' : Char).isDigit = true))]
    rw [if_pos rfl]
    rw [if_pos (by decide : isPyWs ' ' = true)]
    rw [takeWhile_nil_of_head isPyWs (body ++ tail)
      (by
        rcases body with _ | ⟨b0, b'⟩
        · exact absurd rfl hbne
        · intro c hc
          simp only [List.cons_append, List.head?_cons,
            Option.some.injEq] at hc
          subst hc
          exact hbhead b0 rfl)]
    rw [dropWhile_eq_self_of_head isPyWs (body ++ tail)
      (by
        rcases body with _ | ⟨b0, b'⟩
        · exact absurd rfl hbne
        · intro c hc
          simp only [List.cons_append, List.head?_cons,
            Option.some.injEq] at hc
          subst hc
          exact hbhead b0 rfl)]
    rw [hcr]
    simp

  | cons dd ds2' ih =>
    intro hall body tail cs rem hbne hbhead hcr
    simp only [List.all_cons, Bool.and_eq_true] at hall
    show matchTail (dd :: (ds2' ++ '.' :: ' ' :: (body ++ tail))) =
      some (dd :: (ds2' ++ '.' :: ' ' :: cs), rem)
    rw [matchTail_cons, if_pos hall.1]
    rw [ih hall.2 body tail cs rem hbne hbhead hcr]

theorem matchAt_clause (ds : List Char) (hne : ds ≠ [])
    (hds : ds.all Char.isDigit = true) (body tail cs rem : List Char)
    (hbne : body ≠ []) (hbhead : ∀ c, body.head? = some c → isPyWs c = false)
    (hcr : contentRun false (body ++ tail) = some (cs, rem)) :
    matchAt false (ds ++ '.' :: ' ' :: (body ++ tail)) =
      some (ds ++ '.' :: ' ' :: cs, rem) := by
  rcases ds with _ | ⟨d0, ds2⟩
  · exact absurd rfl hne
  · simp only [List.all_cons, Bool.and_eq_true] at hds
    show matchAt false (d0 :: (ds2 ++ '.' :: ' ' :: (body ++ tail))) = _
    rw [matchAt]
    rw [if_pos (by simp [hds.1])]
    rw [matchTail_clause ds2 hds.2 body tail cs rem hbne hbhead hcr]
    rfl

theorem scanAux_nil (fuel : Nat) (p : Bool) : scanAux fuel p [] = [] := by
  cases fuel <;> rfl

theorem clauseOkB_parts (ds b : List Char) (h : clauseOkB ds b = true) :
    ds ≠ [] ∧ ds.all Char.isDigit = true ∧ b ≠ [] ∧
      (∀ c, b.head? = some c → isPyWs c = false) ∧
      (∀ c, b.getLast? = some c → isPyWs c = false) ∧
      (∀ c ∈ b, ¬(c = '\n')) ∧ noMarkerScan false (b ++ [' ']) = true := by
  unfold clauseOkB at h
  simp only [Bool.and_eq_true] at h
  obtain ⟨⟨⟨⟨⟨h1, h2⟩, h3⟩, h4⟩, h5⟩, h6⟩ := h
  have hbne : b ≠ [] := by
    cases b with
    | nil => exact absurd h3 (by simp)
    | cons c0 b' => exact List.cons_ne_nil c0 b'
  refine ⟨?_, h2, hbne, ?_, ?_, ?_, h6⟩
  · cases ds with
    | nil => exact absurd h1 (by simp)
    | cons a as => exact List.cons_ne_nil a as
  · intro c hc
    cases b with
    | nil => exact absurd h3 (by simp)
    | cons c0 b' =>
      simp only [List.head?_cons, Option.some.injEq] at hc
      subst hc
      simpa using h3
  · intro c hc
    rw [hc] at h4
    simpa using h4
  · intro c hc
    have := List.all_eq_true.mp h5 c hc
    simpa using this

theorem clausesText_shape (q : List Char × List Char)
    (qs : List (List Char × List Char)) :
    ∃ Y, clausesText (q :: qs) = q.1 ++ '.' :: ' ' :: Y := by
  cases qs with
  | nil => exact ⟨q.2, rfl⟩
  | cons q2 qs2 =>
    refine ⟨q.2 ++ ' ' :: clausesText (q2 :: qs2), ?_⟩
    show clauseL q.1 q.2 ++ ' ' :: clausesText (q2 :: qs2) = _
    simp [clauseL, List.append_assoc]

theorem clausesText_ne_nil (q : List Char × List Char)
    (qs : List (List Char × List Char)) (hq : q.1 ≠ []) :
    clausesText (q :: qs) ≠ [] := by
  obtain ⟨Y, hY⟩ := clausesText_shape q qs
  intro hc
  rw [hY] at hc
  simp only [List.append_eq_nil] at hc
  exact hq hc.1

theorem markerHead_clausesText (q : List Char × List Char)
    (qs : List (List Char × List Char)) (hok : clauseOkB q.1 q.2 = true) :
    markerHead false (clausesText (q :: qs)) = true := by
  obtain ⟨h1, h2, _, _, _, _, _⟩ := clauseOkB_parts q.1 q.2 hok
  obtain ⟨Y, hY⟩ := clausesText_shape q qs
  rw [hY]
  exact markerHead_clause q.1 h1 h2 ' ' (by decide) Y

theorem matchAt_cons (p : Bool) (c : Char) (r : List Char) :
    matchAt p (c :: r) =
      if !p && c.isDigit then
        match matchTail r with
        | some (m, rem) => some (c :: m, rem)
        | none => none
      else none := rfl

theorem scanAux_cons (fuel : Nat) (p : Bool) (c : Char) (r : List Char) :
    scanAux (fuel + 1) p (c :: r) =
      match matchAt p (c :: r) with
      | some (m, rem) =>
        m :: scanAux fuel (match m.getLast? with
                           | some d => d.isDigit
                           | none => false) rem
      | none => scanAux fuel c.isDigit r := rfl

theorem scanAux_cons_none (fuel : Nat) (p : Bool) (c : Char) (r : List Char)
    (h : matchAt p (c :: r) = none) :
    scanAux (fuel + 1) p (c :: r) = scanAux fuel c.isDigit r := by
  rw [scanAux_cons, h]

theorem scanAux_match_step (fuel : Nat) (p : Bool) (l m rem : List Char)
    (hl : l ≠ []) (h : matchAt p l = some (m, rem)) :
    scanAux (fuel + 1) p l =
      m :: scanAux fuel (match m.getLast? with
                         | some d => d.isDigit
                         | none => false) rem := by
  rcases l with _ | ⟨c, r⟩
  · exact absurd rfl hl
  · rw [scanAux_cons, h]

theorem digitsThen_false_matchTail :
    ∀ r : List Char, digitsThen r = false → matchTail r = none := by
  intro r
  induction r with
  | nil => intro _; rfl
  | cons c r' ih =>
    intro h
    rw [digitsThen] at h
    rw [matchTail_cons]
    by_cases hc : c.isDigit
    · rw [if_pos hc] at h
      rw [if_pos hc, ih h]
    · rw [if_neg hc] at h
      rw [if_neg hc]
      by_cases hdot : c = '.'
      · rw [if_pos hdot]
        rcases r' with _ | ⟨x, r''⟩
        · rfl
        · subst hdot
          have hx : isPyWs x = false := by
            simpa [dotWs] using h
          show (if isPyWs x = true then
            match contentRun false (r''.dropWhile isPyWs) with
            | some (cs, rem) =>
              some ('.' :: x :: (r''.takeWhile isPyWs ++ cs), rem)
            | none => none
          else none) = none
          rw [if_neg (by simp [hx])]
      · rw [if_neg hdot]

theorem markerHead_false_matchAt (p : Bool) (l : List Char)
    (h : markerHead p l = false) : matchAt p l = none := by
  rcases l with _ | ⟨c, r⟩
  · rfl
  · rw [markerHead] at h
    rw [matchAt_cons]
    by_cases hc : (!p && c.isDigit) = true
    · rw [if_pos hc]
      simp only [Bool.and_eq_true] at hc
      have hdt : digitsThen r = false := by
        simpa [hc.1, hc.2] using h
      rw [digitsThen_false_matchTail r hdt]
    · rw [if_neg hc]

/-- The `findall` scan over a well-formed clause sequence returns exactly
the clauses, each mid-sequence one with its separating space. -/
theorem scan_clauses :
    ∀ (CL : List (List Char × List Char)) (fuel : Nat),
      (∀ pr ∈ CL, clauseOkB pr.1 pr.2 = true) → CL.length ≤ fuel →
      scanAux fuel false (clausesText CL) = clauseItems CL := by
  intro CL
  induction CL with
  | nil =>
    intro fuel _ _
    rw [show clausesText [] = [] from rfl, scanAux_nil]
    rfl
  | cons p ps ih =>
    intro fuel hok hfuel
    obtain ⟨hds_ne, hds_dig, hb_ne, hb_head, hb_last, hb_nl, hb_nm⟩ :=
      clauseOkB_parts p.1 p.2 (hok p (by simp))
    rcases fuel with _ | f
    · simp at hfuel
    rcases ps with _ | ⟨q, qs⟩
    · have hma : matchAt false (clauseL p.1 p.2) =
          some (clauseL p.1 p.2, []) := by
        show matchAt false (p.1 ++ '.' :: ' ' :: p.2) =
          some (p.1 ++ '.' :: ' ' :: p.2, [])
        have hcr : contentRun false (p.2 ++ []) = some (p.2, []) := by
          rw [List.append_nil]
          exact contentRun_last p.2 false hb_nl hb_nm
        have hres := matchAt_clause p.1 hds_ne hds_dig p.2 [] p.2 []
          hb_ne hb_head hcr
        simpa using hres
      have hcne : clauseL p.1 p.2 ≠ [] := by
        simp [clauseL]
      show scanAux (f + 1) false (clauseL p.1 p.2) = [clauseL p.1 p.2]
      rw [scanAux_match_step f false (clauseL p.1 p.2) (clauseL p.1 p.2) []
        hcne hma]
      rw [scanAux_nil]
    · have hqok := hok q (by simp)
      obtain ⟨hq_ne, _, _, _, _, _, _⟩ := clauseOkB_parts q.1 q.2 hqok
      have hmk : markerHead false (clausesText (q :: qs)) = true :=
        markerHead_clausesText q qs hqok
      have hnext_ne : clausesText (q :: qs) ≠ [] :=
        clausesText_ne_nil q qs hq_ne
      have hcr : contentRun false (p.2 ++ ' ' :: clausesText (q :: qs)) =
          some (p.2 ++ [' '], clausesText (q :: qs)) :=
        contentRun_body p.2 false _ hb_nl hb_nm hmk hnext_ne
      have hma : matchAt false
          (p.1 ++ '.' :: ' ' :: (p.2 ++ ' ' :: clausesText (q :: qs))) =
          some (p.1 ++ '.' :: ' ' :: (p.2 ++ [' ']), clausesText (q :: qs)) :=
        matchAt_clause p.1 hds_ne hds_dig p.2 (' ' :: clausesText (q :: qs))
          (p.2 ++ [' ']) (clausesText (q :: qs)) hb_ne hb_head hcr
      have htext : clausesText (p :: q :: qs) =
          p.1 ++ '.' :: ' ' :: (p.2 ++ ' ' :: clausesText (q :: qs)) := by
        show clauseL p.1 p.2 ++ ' ' :: clausesText (q :: qs) = _
        simp [clauseL, List.append_assoc]
      have hm_eq : p.1 ++ '.' :: ' ' :: (p.2 ++ [' ']) =
          clauseL p.1 p.2 ++ [' '] := by
        simp [clauseL, List.append_assoc]
      rw [htext]
      rw [scanAux_match_step f false _ _ _
        (by
          intro hcc
          rw [List.append_eq_nil] at hcc
          exact absurd hcc.2 (by simp)) hma]
      have hlast : (p.1 ++ '.' :: ' ' :: (p.2 ++ [' '])).getLast? =
          some ' ' := by
        rw [hm_eq]
        exact List.getLast?_concat _
      rw [hlast]
      show (p.1 ++ '.' :: ' ' :: (p.2 ++ [' '])) ::
          scanAux f false (clausesText (q :: qs)) = clauseItems (p :: q :: qs)
      rw [ih f (fun pr hpr => hok pr (by simp [hpr]))
        (by
          simp only [List.length_cons] at hfuel ⊢
          omega)]
      rw [hm_eq]
      rfl

theorem clausesText_length (CL : List (List Char × List Char)) :
    CL.length ≤ (clausesText CL).length + 1 := by
  induction CL with
  | nil => simp [clausesText]
  | cons p ps ih =>
    rcases ps with _ | ⟨q, qs⟩
    · simp [clausesText]
    · show (p :: q :: qs).length ≤
        (clauseL p.1 p.2 ++ ' ' :: clausesText (q :: qs)).length + 1
      simp only [List.length_cons, List.length_append] at ih ⊢
      omega

theorem stripChars_eq_self_of_ends (l : List Char)
    (hh : ∀ c, l.head? = some c → isPyWs c = false)
    (hl : ∀ c, l.getLast? = some c → isPyWs c = false) :
    stripChars l = l := by
  have h1 : l.dropWhile isPyWs = l := dropWhile_eq_self_of_head _ _ hh
  have h2 : l.reverse.dropWhile isPyWs = l.reverse :=
    dropWhile_eq_self_of_head _ _
      (fun c hc => hl c (by rw [← List.head?_reverse]; exact hc))
  unfold stripChars
  rw [h1, h2, List.reverse_reverse]

theorem clauseL_head (ds b : List Char) (hne : ds ≠ [])
    (hds : ds.all Char.isDigit = true) :
    ∀ c, (clauseL ds b).head? = some c → isPyWs c = false := by
  rcases ds with _ | ⟨d0, ds2⟩
  · exact absurd rfl hne
  · intro c hc
    simp only [clauseL, List.cons_append, List.head?_cons,
      Option.some.injEq] at hc
    subst hc
    simp only [List.all_cons, Bool.and_eq_true] at hds
    exact digit_not_ws d0 hds.1

theorem clauseL_last (ds b : List Char) (hbne : b ≠ [])
    (hbl : ∀ c, b.getLast? = some c → isPyWs c = false) :
    ∀ c, (clauseL ds b).getLast? = some c → isPyWs c = false := by
  intro c hc
  rw [show clauseL ds b = (ds ++ ['.', ' ']) ++ b by
      simp [clauseL, List.append_assoc]] at hc
  rw [List.getLast?_append_of_ne_nil _ hbne] at hc
  exact hbl c hc

theorem clausesText_last :
    ∀ CL : List (List Char × List Char),
      (∀ pr ∈ CL, clauseOkB pr.1 pr.2 = true) →
      ∀ c, (clausesText CL).getLast? = some c → isPyWs c = false := by
  intro CL
  induction CL with
  | nil => intro _ c hc; simp [clausesText] at hc
  | cons p ps ih =>
    intro hok c hc
    obtain ⟨_, _, hb_ne, _, hb_last, _, _⟩ :=
      clauseOkB_parts p.1 p.2 (hok p (by simp))
    rcases ps with _ | ⟨q, qs⟩
    · exact clauseL_last p.1 p.2 hb_ne hb_last c hc
    · have hq_ne := (clauseOkB_parts q.1 q.2 (hok q (by simp))).1
      have hrne : clausesText (q :: qs) ≠ [] :=
        clausesText_ne_nil q qs hq_ne
      rw [show clausesText (p :: q :: qs) =
          (clauseL p.1 p.2 ++ [' ']) ++ clausesText (q :: qs) by
        show clauseL p.1 p.2 ++ ' ' :: clausesText (q :: qs) = _
        simp [List.append_assoc]] at hc
      rw [List.getLast?_append_of_ne_nil _ hrne] at hc
      exact ih (fun pr hpr => hok pr (by simp [hpr])) c hc

theorem clausesText_head (CL : List (List Char × List Char)) (hne : CL ≠ [])
    (hok : ∀ pr ∈ CL, clauseOkB pr.1 pr.2 = true) :
    ∀ c, (clausesText CL).head? = some c → isPyWs c = false := by
  intro c hc
  rcases CL with _ | ⟨p, ps⟩
  · exact absurd rfl hne
  · obtain ⟨hp_ne, hp_dig, _, _, _, _, _⟩ :=
      clauseOkB_parts p.1 p.2 (hok p (by simp))
    obtain ⟨Y, hY⟩ := clausesText_shape p ps
    rw [hY] at hc
    rcases hp1 : p.1 with _ | ⟨d0, ds2⟩
    · exact absurd hp1 hp_ne
    · rw [hp1] at hc
      simp only [List.cons_append, List.head?_cons, Option.some.injEq] at hc
      subst hc
      rw [hp1] at hp_dig
      simp only [List.all_cons, Bool.and_eq_true] at hp_dig
      exact digit_not_ws d0 hp_dig.1

theorem dropWhile_append_split (p : Char → Bool) (a b : List Char) :
    (a ++ b).dropWhile p =
      if (a.dropWhile p).isEmpty then b.dropWhile p
      else a.dropWhile p ++ b := by
  induction a with
  | nil => simp
  | cons c a' ih =>
    simp only [List.cons_append, List.dropWhile_cons]
    by_cases hc : p c
    · rw [if_pos hc, if_pos hc]
      exact ih
    · rw [if_neg hc, if_neg hc]
      simp

theorem stripChars_append_ws (l : List Char) (x : Char)
    (hx : isPyWs x = true) : stripChars (l ++ [x]) = stripChars l := by
  unfold stripChars
  rw [dropWhile_append_split isPyWs l [x]]
  by_cases he : (l.dropWhile isPyWs).isEmpty
  · rw [if_pos he]
    rw [show ([x].dropWhile isPyWs) = [] by
      rw [List.dropWhile_cons, if_pos hx]; rfl]
    rw [show l.dropWhile isPyWs = [] from by
      rwa [List.isEmpty_iff] at he]
  · rw [if_neg he]
    rw [List.reverse_append]
    rw [show ([x] : List Char).reverse = [x] from rfl]
    rw [List.singleton_append, List.dropWhile_cons, if_pos hx]

theorem stripChars_clauseL (ds b : List Char) (hne : ds ≠ [])
    (hds : ds.all Char.isDigit = true) (hbne : b ≠ [])
    (hbl : ∀ c, b.getLast? = some c → isPyWs c = false) :
    stripChars (clauseL ds b) = clauseL ds b :=
  stripChars_eq_self_of_ends _ (clauseL_head ds b hne hds)
    (clauseL_last ds b hbne hbl)

theorem clauseItems_strip :
    ∀ CL : List (List Char × List Char),
      (∀ pr ∈ CL, clauseOkB pr.1 pr.2 = true) →
      (clauseItems CL).map stripChars =
        CL.map (fun pr => clauseL pr.1 pr.2) := by
  intro CL
  induction CL with
  | nil => intro _; rfl
  | cons p ps ih =>
    intro hok
    obtain ⟨hne, hds, hbne, _, hbl, _, _⟩ :=
      clauseOkB_parts p.1 p.2 (hok p (by simp))
    rcases ps with _ | ⟨q, qs⟩
    · show [stripChars (clauseL p.1 p.2)] = [clauseL p.1 p.2]
      rw [stripChars_clauseL p.1 p.2 hne hds hbne hbl]
    · show stripChars (clauseL p.1 p.2 ++ [' ']) ::
          (clauseItems (q :: qs)).map stripChars =
        clauseL p.1 p.2 :: (q :: qs).map (fun pr => clauseL pr.1 pr.2)
      rw [stripChars_append_ws _ ' ' (by decide),
        stripChars_clauseL p.1 p.2 hne hds hbne hbl,
        ih (fun pr hpr => hok pr (by simp [hpr]))]

theorem clauseItems_filter (CL : List (List Char × List Char))
    (hok : ∀ pr ∈ CL, clauseOkB pr.1 pr.2 = true) :
    (CL.map (fun pr => clauseL pr.1 pr.2)).filter
        (fun item => !item.isEmpty) =
      CL.map (fun pr => clauseL pr.1 pr.2) := by
  apply List.filter_eq_self.mpr
  intro x hx
  simp only [List.mem_map] at hx
  obtain ⟨pr, hpr, rfl⟩ := hx
  have hne := (clauseOkB_parts pr.1 pr.2 (hok pr hpr)).1
  rcases h1 : pr.1 with _ | ⟨d0, ds⟩
  · exact absurd h1 hne
  · simp [clauseL, h1]

/-- C1 (corrected): on a non-empty sequence of space-separated numbered
clauses whose bodies are trimmed, non-empty, newline-free and contain no
embedded clause marker, `to_bullets` returns exactly one item per clause,
each retaining its number, period and content. -/
theorem C1_amended_numbered_split (CL : List (List Char × List Char))
    (hne : CL ≠ []) (hok : ∀ pr ∈ CL, clauseOkB pr.1 pr.2 = true) :
    to_bullets (String.mk (clausesText CL)) =
      CL.map (fun pr => String.mk (clauseL pr.1 pr.2)) := by
  have hstrip : stripChars (clausesText CL) = clausesText CL :=
    stripChars_eq_self_of_ends _ (clausesText_head CL hne hok)
      (clausesText_last CL hok)
  have htne : clausesText CL ≠ [] := by
    rcases CL with _ | ⟨p, ps⟩
    · exact absurd rfl hne
    · exact clausesText_ne_nil p ps
        (clauseOkB_parts p.1 p.2 (hok p (by simp))).1
  have hE : (clausesText CL).isEmpty = false := by
    cases hq : clausesText CL with
    | nil => exact absurd hq htne
    | cons a b => rfl
  have hscan : pyFindall (clausesText CL) = clauseItems CL := by
    unfold pyFindall
    refine scan_clauses CL ((clausesText CL).length + 1) hok ?_
    have := clausesText_length CL
    omega
  have hIE : (clauseItems CL).isEmpty = false := by
    rcases CL with _ | ⟨p, ps⟩
    · exact absurd rfl hne
    · rcases ps with _ | ⟨q, qs⟩ <;> rfl
  show (toBulletsL (String.mk (clausesText CL)).data).map String.mk = _
  rw [show (String.mk (clausesText CL)).data = clausesText CL from rfl]
  simp only [toBulletsL, hstrip, hE, hscan, hIE, Bool.false_eq_true,
    if_false, Bool.not_false, if_true]
  rw [clauseItems_strip CL hok, clauseItems_filter CL hok]
  simp [List.map_map, Function.comp]

/-- Witness for C1 at the spec's example input. -/
theorem C1_witness :
    to_bullets "1. A 2. B 3. C" = ["1. A", "2. B", "3. C"] := by
  have h := C1_amended_numbered_split
    [(['1'], ['A']), (['2'], ['B']), (['3'], ['C'])] (by decide) (by decide)
  have e : String.mk
      (clausesText [(['1'], ['A']), (['2'], ['B']), (['3'], ['C'])]) =
      "1. A 2. B 3. C" := by decide
  rw [e] at h
  rw [h]
  decide

/-! ## Claim C10: text before the first clause marker is dropped -/

theorem scan_pass :
    ∀ (region : List Char) (fuel : Nat) (p : Bool) (k : List Char),
      noStartIn p region k = true →
      scanAux (region.length + fuel) p (region ++ k) =
        scanAux fuel
          (match region.getLast? with
           | some c => c.isDigit
           | none => p) k := by
  intro region
  induction region with
  | nil =>
    intro fuel p k _
    rw [List.length_nil, Nat.zero_add]
    rfl
  | cons c r ih =>
    intro fuel p k hns
    rw [noStartIn] at hns
    simp only [Bool.and_eq_true, Bool.not_eq_true'] at hns
    show scanAux (r.length + 1 + fuel) p (c :: (r ++ k)) = _
    rw [show r.length + 1 + fuel = r.length + fuel + 1 by omega]
    rw [scanAux_cons_none (r.length + fuel) p c (r ++ k)
      (markerHead_false_matchAt p _ hns.1)]
    rw [ih fuel c.isDigit k hns.2]
    rcases r with _ | ⟨x, r'⟩
    · rfl
    · rw [List.getLast?_cons_cons]
      rcases hgl : (x :: r').getLast? with _ | d
      · exact absurd hgl (by simp)
      · rfl

theorem noStartIn_dropWhile_ws (l k : List Char)
    (h : noStartIn false l k = true) :
    noStartIn false (l.dropWhile isPyWs) k = true := by
  induction l with
  | nil => exact h
  | cons c r ih =>
    rw [List.dropWhile_cons]
    by_cases hc : isPyWs c
    · rw [if_pos hc]
      rw [noStartIn] at h
      simp only [Bool.and_eq_true] at h
      have h2 := h.2
      rw [ws_not_digit c hc] at h2
      exact ih h2
    · rw [if_neg hc]
      exact h

theorem getLast?_dropWhile (p : Char → Bool) (l : List Char)
    (hne : l.dropWhile p ≠ []) :
    (l.dropWhile p).getLast? = l.getLast? := by
  conv_rhs => rw [← List.takeWhile_append_dropWhile p l]
  rw [List.getLast?_append_of_ne_nil _ hne]

/-- C10 as stated is false: with the prefix `P = "9"` — which on its own
contains no clause marker — the digits merge, `to_bullets ("9" ++ "1. A")`
returns the single item `"91. A"`, and that item does contain `P` (it
starts with it). -/
theorem C10_counterexample :
    noStartIn false ['9'] [] = true ∧
      to_bullets ("9" ++ "1. A") = ["91. A"] ∧
      "91. A".data = '9' :: "1. A".data := by decide

/-- C10 (corrected): when no clause-marker occurrence of the whole text
begins inside the prefix `P` and `P` does not end with a digit, the
prefix is dropped entirely: `to_bullets (P ++ "1. A")` is exactly the
numbered clause. -/
theorem C10_amended_prefix_dropped (P : String)
    (h1 : noStartIn false P.data ['1', '.', ' ', 'A'] = true)
    (h2 : (match P.data.getLast? with
           | some c => !c.isDigit
           | none => true) = true) :
    to_bullets (P ++ "1. A") = ["1. A"] := by
  have hd : (P ++ "1. A").data = P.data ++ ['1', '.', ' ', 'A'] := by
    rw [String.data_append]
  have hstrip : stripChars ((P ++ "1. A").data) =
      P.data.dropWhile isPyWs ++ ['1', '.', ' ', 'A'] := by
    rw [hd]
    unfold stripChars
    rw [dropWhile_append_split isPyWs P.data ['1', '.', ' ', 'A']]
    by_cases he : (P.data.dropWhile isPyWs).isEmpty
    · rw [if_pos he]
      rw [show P.data.dropWhile isPyWs = [] from by
        rwa [List.isEmpty_iff] at he]
      decide
    · rw [if_neg he]
      have hself : (P.data.dropWhile isPyWs ++
          ['1', '.', ' ', 'A']).reverse.dropWhile isPyWs =
          (P.data.dropWhile isPyWs ++ ['1', '.', ' ', 'A']).reverse := by
        apply dropWhile_eq_self_of_head
        intro c hc
        rw [List.head?_reverse] at hc
        rw [List.getLast?_append_of_ne_nil _
          (by simp : (['1', '.', ' ', 'A'] : List Char) ≠ [])] at hc
        rw [show (['1', '.', ' ', 'A'] : List Char).getLast? = some 'A'
          from rfl] at hc
        injection hc with hc
        subst hc
        decide
      rw [hself, List.reverse_reverse]
  have hQns : noStartIn false (P.data.dropWhile isPyWs)
      ['1', '.', ' ', 'A'] = true := noStartIn_dropWhile_ws P.data _ h1
  have hQlast : (match (P.data.dropWhile isPyWs).getLast? with
      | some c => c.isDigit
      | none => false) = false := by
    rcases hql : (P.data.dropWhile isPyWs).getLast? with _ | c
    · rfl
    · have hQne : P.data.dropWhile isPyWs ≠ [] := by
        intro hq
        rw [hq] at hql
        simp at hql
      have hPl : P.data.getLast? = some c := by
        rw [← getLast?_dropWhile isPyWs P.data hQne]
        exact hql
      rw [hPl] at h2
      simpa using h2
  have hscan : pyFindall (P.data.dropWhile isPyWs ++ ['1', '.', ' ', 'A']) =
      [['1', '.', ' ', 'A']] := by
    unfold pyFindall
    rw [show (P.data.dropWhile isPyWs ++
        ['1', '.', ' ', 'A'] : List Char).length + 1 =
        (P.data.dropWhile isPyWs).length + 5 by
      simp [List.length_append]]
    rw [scan_pass (P.data.dropWhile isPyWs) 5 false ['1', '.', ' ', 'A'] hQns]
    rw [hQlast]
    decide
  have hE : (P.data.dropWhile isPyWs ++
      ['1', '.', ' ', 'A'] : List Char).isEmpty = false := by
    cases hql2 : P.data.dropWhile isPyWs ++ ['1', '.', ' ', 'A'] with
    | nil => exact absurd hql2 (by simp)
    | cons a b => rfl
  show (toBulletsL (P ++ "1. A").data).map String.mk = ["1. A"]
  simp only [toBulletsL, hstrip, hscan]
  rw [hE]
  simp only [Bool.false_eq_true, if_false]
  rw [if_pos (by decide :
    (!([['1', '.', ' ', 'A']] : List (List Char)).isEmpty) = true)]
  decide

/-- Witness for C10 at the concrete prefix `"xyz "`. -/
theorem C10_witness : to_bullets ("xyz " ++ "1. A") = ["1. A"] :=
  C10_amended_prefix_dropped "xyz " (by decide) (by decide)

end BuildSite
